import Mathlib

/-!
Shallow embedding of `src/bot.py` (a Telegram chat bot backed by an Ollama
HTTP endpoint).  Timestamps (`time.time()` floats, only ever compared and
shifted by constants here) are modelled as `Int`; Python dicts as insertion
ordered association lists; Python text strings as their sequences of code
points (`List Char`, so that `len`, slicing and `strip` are the evident
list operations); the two module-level dicts `states` and `locks` are
passed explicitly.  The backend call is an oracle parameter: the handler is
given the outcome of the primary-model call and of the fallback-model call
and never inspects more of them than the code does.
-/

namespace Bot

/-- A Python `str`: the sequence of its code points. -/
abbrev PyStr := List Char

/-- Python `s.strip()`: remove leading and trailing whitespace. -/
def pyStrip (s : PyStr) : PyStr :=
  ((s.dropWhile Char.isWhitespace).reverse.dropWhile Char.isWhitespace).reverse

/-- Config constant `MAX_HISTORY_MESSAGES = 12` (bot.py line 34). -/
def MAX_HISTORY_MESSAGES : Nat := 12

/-- Config constant `WINDOW_SEC = 10` (bot.py line 35). -/
def WINDOW_SEC : Int := 10

/-- Config constant `MAX_MSG_PER_WINDOW = 4` (bot.py line 36). -/
def MAX_MSG_PER_WINDOW : Nat := 4

/-- Config constant `MAX_INPUT_CHARS` (default 4000, bot.py line 39). -/
def MAX_INPUT_CHARS : Nat := 4000

/-- Config constant `MAX_CONTEXT_CHARS` (default 24000, bot.py line 40). -/
def MAX_CONTEXT_CHARS : Nat := 24000

/-- Config constant `STATE_TTL_SEC = 24*60*60` (bot.py line 43). -/
def STATE_TTL_SEC : Int := 24 * 60 * 60

/-- Config constant `MAX_CHAT_STATES = 2000` (bot.py line 44). -/
def MAX_CHAT_STATES : Nat := 2000

/-- Config constant `DEFAULT_MODEL` (default value, bot.py line 26). -/
def DEFAULT_MODEL : String := "qwen2.5:1.5b"

/-- `SYSTEM_PROMPT` (bot.py lines 29-32). -/
def SYSTEM_PROMPT : PyStr :=
  "Отвечай на русском. Кратко, структурно, без воды. Если не уверен — прямо так и скажи.".toList

/-- One history entry: a Python dict with keys `role` and `content`. -/
structure Msg where
  role : String
  content : PyStr
deriving DecidableEq, Repr

/-- `ChatState` dataclass (bot.py lines 49-54). -/
structure ChatState where
  model : String
  history : List Msg
  hits : List Int
  lastSeen : Int
deriving DecidableEq, Repr

/-- `ChatState()` with all defaults; `last_seen` is set from the clock. -/
def freshState (now : Int) : ChatState :=
  { model := DEFAULT_MODEL, history := [], hits := [], lastSeen := now }

/-- The module-level dict `states : Dict[int, ChatState]`, as an insertion
ordered association list (Python dicts preserve insertion order). -/
abbrev Store := List (Int × ChatState)

/-- Update the value stored under a key, keeping dict order; a no-op when the
key is absent (Python assignment to an existing key keeps its position). -/
def setEntry (s : Store) (id : Int) (st : ChatState) : Store :=
  s.map fun e => if e.1 = id then (e.1, st) else e

/-- `get_state` (bot.py lines 128-133): insert a fresh `ChatState` when the
id is new (at the end, as Python dict insertion does), then stamp
`last_seen = time.time()`.  Returns the updated dict and the entry. -/
def get_state (s : Store) (id : Int) (now : Int) : Store × ChatState :=
  let s1 := if (s.lookup id).isSome then s else s ++ [(id, freshState now)]
  let st := { ((s1.lookup id).getD (freshState now)) with lastSeen := now }
  (setEntry s1 id st, st)

/-- Core of `RateLimiter.allow` (bot.py lines 62-69), parametric in the
window and hit limit: prune hits older than `now - windowSec`, reject when
`maxHits` remain, otherwise record `now` and accept. -/
def rlAllowW (windowSec : Int) (maxHits : Nat) (hits : List Int) (now : Int) :
    Bool × List Int :=
  let cutoff := now - windowSec
  let pruned := hits.filter fun t => decide (cutoff ≤ t)
  if maxHits ≤ pruned.length then (false, pruned)
  else (true, pruned ++ [now])

/-- The limiter instance `rl = RateLimiter(WINDOW_SEC, MAX_MSG_PER_WINDOW)`
(bot.py line 123). -/
def rlAllow (hits : List Int) (now : Int) : Bool × List Int :=
  rlAllowW WINDOW_SEC MAX_MSG_PER_WINDOW hits now

/-- Accepted timestamps of a sequence of `allow` calls on one conversation,
each call at the given clock value, starting from the given `hits` list. -/
def runAccepted (windowSec : Int) (maxHits : Nat) (hits : List Int) :
    List Int → List Int
  | [] => []
  | n :: rest =>
    let a := rlAllowW windowSec maxHits hits n
    if a.1 then n :: runAccepted windowSec maxHits a.2 rest
    else runAccepted windowSec maxHits a.2 rest

/-- Role filter shared by both trimmers: keep only `user`/`assistant`
entries (bot.py lines 191 and 200). -/
def roleFilter (hist : List Msg) : List Msg :=
  hist.filter fun m => m.role == "user" || m.role == "assistant"

/-- `trim_history` (bot.py lines 190-192): role-filter, then keep the last
`MAX_HISTORY_MESSAGES` entries (`msgs[-MAX_HISTORY_MESSAGES:]`). -/
def trim_history (hist : List Msg) : List Msg :=
  let msgs := roleFilter hist
  msgs.drop (msgs.length - MAX_HISTORY_MESSAGES)

/-- Loop of `trim_history_by_chars` (bot.py lines 201-208), walking the
reversed (newest-first) list with the running total `total`; `break` on the
first entry that would push the total past `maxChars`. -/
def trimLoop (items : List Msg) (total : Nat) (maxChars : Nat) : List Msg :=
  match items with
  | [] => []
  | m :: rest =>
    let total1 := total + m.content.length
    if maxChars < total1 then []
    else m :: trimLoop rest total1 maxChars

/-- `trim_history_by_chars` (bot.py lines 195-210): role-filter, scan from
the newest entry backwards keeping entries while the cumulative content
length stays within `maxChars`, then restore chronological order. -/
def trim_history_by_chars (hist : List Msg) (maxChars : Nat) : List Msg :=
  let items := roleFilter hist
  (trimLoop items.reverse 0 maxChars).reverse

/-- Cumulative content length of a history. -/
def histChars (h : List Msg) : Nat :=
  (h.map fun m => m.content.length).sum

/-- `build_messages` (bot.py lines 213-218). -/
def build_messages (state : ChatState) (userText : PyStr) : List Msg :=
  let base := [⟨"system", SYSTEM_PROMPT⟩]
  let hist := trim_history state.history
  let hist1 := trim_history_by_chars hist MAX_CONTEXT_CHARS
  base ++ hist1 ++ [⟨"user", userText⟩]

/-- Ids of the TTL-stale entries (bot.py line 156): `last_seen` strictly
below `now - STATE_TTL_SEC`. -/
def staleIds (s : Store) (now : Int) : List Int :=
  (s.filter fun e => decide (e.2.lastSeen < now - STATE_TTL_SEC)).map fun e => e.1

/-- `states.pop(cid, None)` for each listed id. -/
def popIds (s : Store) (ids : List Int) : Store :=
  s.filter fun e => !(ids.contains e.1)

/-- Comparison key of the capacity pass (bot.py line 165):
`sorted(states.items(), key=lambda kv: kv[1].last_seen)`. -/
def bySeen (a b : Int × ChatState) : Bool :=
  decide (a.2.lastSeen ≤ b.2.lastSeen)

/-- `gc_states` (bot.py lines 144-169): TTL pass popping every entry with
`last_seen < now - STATE_TTL_SEC`, then, when more than `MAX_CHAT_STATES`
entries remain, a capacity pass popping the `extra` entries with the
smallest `last_seen` (stable sort, matching Python's `sorted`).  Returns the
surviving dict and the removal count the code accumulates. -/
def gc_states (s : Store) (now : Int) : Store × Nat :=
  let stale := staleIds s now
  let s1 := popIds s stale
  let removed1 := stale.length
  if MAX_CHAT_STATES < s1.length then
    let extra := s1.length - MAX_CHAT_STATES
    let victims := ((s1.mergeSort bySeen).take extra).map fun e => e.1
    (popIds s1 victims, removed1 + victims.length)
  else (s1, removed1)

/-- One GC sweep at module level.  `gc_states` reads and writes only the
`states` dict; no statement of `bot.py` ever removes a key from the `locks`
dict (its sole writer is `get_lock`, bot.py lines 136-141, which only ever
inserts), so the sweep carries the key set of `locks` through unchanged. -/
def gcSweep (s : Store) (locks : List Int) (now : Int) : Store × List Int × Nat :=
  let r := gc_states s now
  (r.1, locks, r.2)

/-- Reply sent on a rate-limit reject (bot.py line 310, with
`WINDOW_SEC = 10` interpolated). -/
def rateMsg : PyStr := "Слишком часто. Подожди 10 сек.".toList

/-- Reply sent on over-long input (bot.py line 317, with
`MAX_INPUT_CHARS = 4000` interpolated). -/
def lenMsg : PyStr := "Слишком длинное сообщение. Максимум 4000 символов.".toList

/-- Placeholder reply for an empty answer (bot.py line 348). -/
def emptyAnswerMsg : PyStr := "Пустой ответ.".toList

/-- Reply when primary and fallback both fail (bot.py line 339):
`f"Ошибка Ollama: {str(e2)[:600]}"`. -/
def ollamaErrMsg (e : PyStr) : PyStr := "Ошибка Ollama: ".toList ++ e.take 600

/-- Outcome of one `on_text` run: the `states` dict after the handler, the
handler's local `state` object (which the dict may or may not still hold),
the reply text if one was sent, and how many backend calls were made. -/
structure Outcome where
  store : Store
  state : ChatState
  reply : Option PyStr
  calls : Nat
deriving DecidableEq, Repr

/-- Success tail of `on_text` (bot.py lines 342-348): append the user and
assistant messages, re-trim by count then by characters, store the result,
and reply with the (possibly placeholder) answer truncated to 4000 chars. -/
def finishTurn (s : Store) (chatId : Int) (st : ChatState)
    (userText answer : PyStr) (calls : Nat) : Outcome :=
  let h1 := st.history ++ [⟨"user", userText⟩, ⟨"assistant", answer⟩]
  let h2 := trim_history_by_chars (trim_history h1) MAX_CONTEXT_CHARS
  let st1 := { st with history := h2 }
  { store := setEntry s chatId st1, state := st1
    reply := some ((if answer.isEmpty then emptyAnswerMsg else answer).take 4000)
    calls := calls }

/-- `on_text` (bot.py lines 294-351), with the backend oracle passed in:
`primaryRes` is the outcome of `ollama.chat(state.model, ...)` and
`fallbackRes` of `ollama.chat(FALLBACK_MODEL, ...)` (consulted only when the
primary fails).  Mutations of the shared `state` object are written back to
the dict via `setEntry` exactly when the dict still holds the id. -/
def on_text (s : Store) (chatId : Int) (text : PyStr) (now : Int)
    (primaryRes fallbackRes : Except PyStr PyStr) : Outcome :=
  let p1 := get_state s chatId now
  let s2 := if MAX_CHAT_STATES < p1.1.length then (gc_states p1.1 now).1 else p1.1
  let a := rlAllow p1.2.hits now
  let st1 := { p1.2 with hits := a.2 }
  let s3 := setEntry s2 chatId st1
  if !a.1 then { store := s3, state := st1, reply := some rateMsg, calls := 0 }
  else
    let userText := pyStrip text
    if userText.isEmpty then { store := s3, state := st1, reply := none, calls := 0 }
    else if MAX_INPUT_CHARS < userText.length then
      { store := s3, state := st1, reply := some lenMsg, calls := 0 }
    else
      match primaryRes with
      | .ok answer => finishTurn s3 chatId st1 userText answer 1
      | .error _ =>
        match fallbackRes with
        | .ok answer => finishTurn s3 chatId st1 userText answer 2
        | .error e2 =>
          { store := s3, state := st1, reply := some (ollamaErrMsg e2), calls := 2 }

/-- `cmd_start` (bot.py lines 244-261): clear the history and restore the
default model; the reply text is elided. -/
def cmd_start (s : Store) (chatId : Int) (now : Int) : Store × ChatState :=
  let p := get_state s chatId now
  let st1 := { p.2 with history := [], model := DEFAULT_MODEL }
  (setEntry p.1 chatId st1, st1)

/-- `cmd_reset` (bot.py lines 264-272): clear the history only. -/
def cmd_reset (s : Store) (chatId : Int) (now : Int) : Store × ChatState :=
  let p := get_state s chatId now
  let st1 := { p.2 with history := [] }
  (setEntry p.1 chatId st1, st1)

/-! ### Helper lemmas about the history trimmers -/

theorem histChars_nil : histChars [] = 0 := rfl

theorem histChars_cons (m : Msg) (l : List Msg) :
    histChars (m :: l) = m.content.length + histChars l := by
  simp [histChars]

theorem histChars_append (l₁ l₂ : List Msg) :
    histChars (l₁ ++ l₂) = histChars l₁ + histChars l₂ := by
  simp [histChars]

theorem histChars_reverse (l : List Msg) : histChars l.reverse = histChars l := by
  simp [histChars, List.map_reverse, List.sum_reverse]

theorem trimLoop_isPrefix (l : List Msg) (t N : Nat) : trimLoop l t N <+: l := by
  induction l generalizing t with
  | nil => simp [trimLoop]
  | cons m rest ih =>
    simp only [trimLoop]
    split
    · exact List.nil_prefix
    · exact List.cons_prefix_cons.mpr ⟨rfl, ih _⟩

theorem trimLoop_take_sum (l : List Msg) (t N : Nat) (ht : t ≤ N) (k : Nat) :
    t + histChars ((trimLoop l t N).take k) ≤ N := by
  induction l generalizing t k with
  | nil => simpa [trimLoop]
  | cons m rest ih =>
    simp only [trimLoop]
    split
    · simpa
    · rename_i hle
      match k with
      | 0 => simpa
      | k + 1 =>
        have h1 : t + m.content.length ≤ N := by omega
        have := ih (t + m.content.length) h1 k
        simp only [List.take_succ_cons, histChars_cons]
        omega

theorem trimLoop_sum (l : List Msg) (t N : Nat) (ht : t ≤ N) :
    t + histChars (trimLoop l t N) ≤ N := by
  have := trimLoop_take_sum l t N ht (trimLoop l t N).length
  simpa [List.take_length] using this

theorem trimLoop_stop (l : List Msg) (t N : Nat) :
    trimLoop l t N = l ∨
      ∃ pre m, l = trimLoop l t N ++ m :: pre ∧
        N < t + histChars (trimLoop l t N) + m.content.length := by
  induction l generalizing t with
  | nil => exact Or.inl rfl
  | cons m rest ih =>
    simp only [trimLoop]
    split
    · refine Or.inr ⟨rest, m, by simp, ?_⟩
      rename_i hlt
      simp only [histChars_nil]
      omega
    · rename_i hle
      rcases ih (t + m.content.length) with h | ⟨pre, m', heq, hlt⟩
      · exact Or.inl (by rw [h])
      · refine Or.inr ⟨pre, m', ?_, ?_⟩
        · simpa using congrArg (m :: ·) heq
        · simp only [histChars_cons]
          omega

theorem trimLoop_keepAll (l : List Msg) (t N : Nat)
    (h : ∀ k, t + histChars (l.take k) ≤ N) : trimLoop l t N = l := by
  induction l generalizing t with
  | nil => rfl
  | cons m rest ih =>
    have h1 : t + m.content.length ≤ N := by
      have := h 1
      simpa [histChars_cons] using this
    simp only [trimLoop]
    rw [if_neg (by omega)]
    refine congrArg (m :: ·) (ih (t + m.content.length) fun k => ?_)
    have := h (k + 1)
    simp only [List.take_succ_cons, histChars_cons] at this
    omega

theorem rolePred_of_mem_roleFilter {m : Msg} {h : List Msg}
    (hm : m ∈ roleFilter h) : (m.role == "user" || m.role == "assistant") = true :=
  (List.mem_filter.mp hm).2

theorem roleFilter_sublist (l : List Msg) : List.Sublist (roleFilter l) l :=
  List.filter_sublist l

theorem roleFilter_eq_self {l : List Msg}
    (h : ∀ m ∈ l, (m.role == "user" || m.role == "assistant") = true) :
    roleFilter l = l :=
  List.filter_eq_self.mpr h

theorem trim_history_sublist (h : List Msg) :
    List.Sublist (trim_history h) (roleFilter h) := by
  simpa [trim_history] using List.drop_sublist _ (roleFilter h)

theorem trim_history_length (h : List Msg) :
    (trim_history h).length ≤ MAX_HISTORY_MESSAGES := by
  simp only [trim_history, List.length_drop]
  omega

theorem mem_trim_history {m : Msg} {h : List Msg} (hm : m ∈ trim_history h) :
    m ∈ roleFilter h :=
  (trim_history_sublist h).mem hm

theorem trim_by_chars_reverse_eq (h : List Msg) (N : Nat) :
    (trim_history_by_chars h N).reverse = trimLoop (roleFilter h).reverse 0 N := by
  simp [trim_history_by_chars]

theorem trim_by_chars_sum (h : List Msg) (N : Nat) :
    histChars (trim_history_by_chars h N) ≤ N := by
  have := trimLoop_sum (roleFilter h).reverse 0 N (Nat.zero_le N)
  rw [← trim_by_chars_reverse_eq, histChars_reverse] at this
  omega

theorem trim_by_chars_isSuffix (h : List Msg) (N : Nat) :
    trim_history_by_chars h N <:+ roleFilter h := by
  have hp := trimLoop_isPrefix (roleFilter h).reverse 0 N
  rw [← trim_by_chars_reverse_eq] at hp
  exact (@List.reverse_prefix _ (trim_history_by_chars h N)
    (roleFilter h)).mp (by simpa using hp)

theorem trim_by_chars_sublist (h : List Msg) (N : Nat) :
    List.Sublist (trim_history_by_chars h N) (roleFilter h) :=
  (trim_by_chars_isSuffix h N).sublist

theorem mem_trim_by_chars {m : Msg} {h : List Msg} {N : Nat}
    (hm : m ∈ trim_history_by_chars h N) : m ∈ roleFilter h :=
  (trim_by_chars_sublist h N).mem hm

theorem trim_by_chars_idem (h : List Msg) (N : Nat) :
    trim_history_by_chars (trim_history_by_chars h N) N =
      trim_history_by_chars h N := by
  have hrole : roleFilter (trim_history_by_chars h N) = trim_history_by_chars h N :=
    roleFilter_eq_self fun m hm => rolePred_of_mem_roleFilter (mem_trim_by_chars hm)
  have hkeep : trimLoop (trim_history_by_chars h N).reverse 0 N =
      (trim_history_by_chars h N).reverse := by
    refine trimLoop_keepAll _ 0 N fun k => ?_
    rw [trim_by_chars_reverse_eq]
    exact trimLoop_take_sum _ 0 N (Nat.zero_le N) k
  calc trim_history_by_chars (trim_history_by_chars h N) N
      = (trimLoop (trim_history_by_chars h N).reverse 0 N).reverse := by
        rw [trim_history_by_chars, hrole]
    _ = trim_history_by_chars h N := by rw [hkeep, List.reverse_reverse]

theorem trim_history_idem (h : List Msg) :
    trim_history (trim_history h) = trim_history h := by
  have hrole : roleFilter (trim_history h) = trim_history h :=
    roleFilter_eq_self fun m hm => rolePred_of_mem_roleFilter (mem_trim_history hm)
  have hlen := trim_history_length h
  conv_lhs => rw [trim_history, hrole]
  have : (trim_history h).length - MAX_HISTORY_MESSAGES = 0 := by omega
  rw [this, List.drop_zero]

/-! ### Theorems for the claims about the trimmers -/

/-- C6: for every history `h` and budget `N`, the cumulative content length
of `trim_history_by_chars h N` is at most `N`; the result is a contiguous
chronological suffix of the role-filtered input; and when the result is a
proper suffix, the first older entry `m` excluded from it would have pushed
the running total above `N`, and it is excluded entirely. -/
theorem trim_by_chars_correct (h : List Msg) (N : Nat) :
    histChars (trim_history_by_chars h N) ≤ N ∧
    trim_history_by_chars h N <:+ roleFilter h ∧
    (trim_history_by_chars h N = roleFilter h ∨
      ∃ pre m, roleFilter h = pre ++ m :: trim_history_by_chars h N ∧
        N < histChars (trim_history_by_chars h N) + m.content.length) := by
  refine ⟨trim_by_chars_sum h N, trim_by_chars_isSuffix h N, ?_⟩
  rcases trimLoop_stop (roleFilter h).reverse 0 N with heq | ⟨pre, m, heq, hlt⟩
  · left
    have := congrArg List.reverse heq
    rw [← trim_by_chars_reverse_eq, List.reverse_reverse, List.reverse_reverse] at this
    exact this
  · right
    refine ⟨pre.reverse, m, ?_, ?_⟩
    · have := congrArg List.reverse heq
      rw [List.reverse_reverse, List.reverse_append, List.reverse_cons,
        ← trim_by_chars_reverse_eq, List.reverse_reverse] at this
      simpa using this
    · rw [← trim_by_chars_reverse_eq, histChars_reverse] at hlt
      omega

/-- C7: the by-count trimmer and the by-characters trimmer are each
idempotent: re-applying either to its own output yields the same output. -/
theorem trim_idempotent (h : List Msg) (N : Nat) :
    trim_history (trim_history h) = trim_history h ∧
    trim_history_by_chars (trim_history_by_chars h N) N =
      trim_history_by_chars h N :=
  ⟨trim_history_idem h, trim_by_chars_idem h N⟩

/-- C10: when the newest user/assistant entry of the role-filtered history
alone exceeds the character budget, `trim_history_by_chars` returns the
empty list, including no older entries at all. -/
theorem trim_by_chars_overlong_newest (h : List Msg) (N : Nat) (m : Msg)
    (hlast : (roleFilter h).getLast? = some m) (hlen : N < m.content.length) :
    trim_history_by_chars h N = [] := by
  have hhead : (roleFilter h).reverse.head? = some m := by
    rw [List.head?_reverse]
    exact hlast
  rcases List.head?_eq_some_iff.mp hhead with ⟨rest, hrest⟩
  rw [trim_history_by_chars]
  rw [show (roleFilter h).reverse = m :: rest from hrest]
  rw [trimLoop, if_pos (by omega)]
  rfl

/-- Witness for C10 at a concrete history: the newest entry has 3 characters
against a budget of 2, so the trim drops everything. -/
theorem trim_by_chars_overlong_newest_witness :
    trim_history_by_chars
      [⟨"user", ['a', 'b']⟩, ⟨"assistant", ['c', 'd', 'e']⟩] 2 = [] :=
  trim_by_chars_overlong_newest _ 2 ⟨"assistant", ['c', 'd', 'e']⟩
    (by decide) (by decide)

/-- C5: after each operation that mutates a conversation's stored history
(a successful message turn, `/reset`, `/start`), the stored history has at
most `MAX_HISTORY_MESSAGES` entries and at most `MAX_CONTEXT_CHARS`
cumulative content characters; `on_text` runs that do not mutate the
history leave it exactly as `get_state` returned it. -/
theorem history_bounds (s : Store) (chatId : Int) (now : Int) (text : PyStr)
    (pr fb : Except PyStr PyStr) :
    ((cmd_start s chatId now).2.history.length ≤ MAX_HISTORY_MESSAGES ∧
      histChars (cmd_start s chatId now).2.history ≤ MAX_CONTEXT_CHARS) ∧
    ((cmd_reset s chatId now).2.history.length ≤ MAX_HISTORY_MESSAGES ∧
      histChars (cmd_reset s chatId now).2.history ≤ MAX_CONTEXT_CHARS) ∧
    ((on_text s chatId text now pr fb).state.history =
        (get_state s chatId now).2.history ∨
      ((on_text s chatId text now pr fb).state.history.length ≤
          MAX_HISTORY_MESSAGES ∧
        histChars (on_text s chatId text now pr fb).state.history ≤
          MAX_CONTEXT_CHARS)) := by
  refine ⟨⟨by simp [cmd_start], by simp [cmd_start, histChars]⟩,
    ⟨by simp [cmd_reset], by simp [cmd_reset, histChars]⟩, ?_⟩
  have hfin : ∀ (s3 : Store) (st1 : ChatState) (u ans : PyStr) (c : Nat),
      (finishTurn s3 chatId st1 u ans c).state.history.length ≤
          MAX_HISTORY_MESSAGES ∧
        histChars (finishTurn s3 chatId st1 u ans c).state.history ≤
          MAX_CONTEXT_CHARS := by
    intro s3 st1 u ans c
    have hh : (finishTurn s3 chatId st1 u ans c).state.history =
        trim_history_by_chars
          (trim_history (st1.history ++ [⟨"user", u⟩, ⟨"assistant", ans⟩]))
          MAX_CONTEXT_CHARS := rfl
    rw [hh]
    refine ⟨?_, trim_by_chars_sum _ _⟩
    have h1 := (trim_by_chars_sublist
      (trim_history (st1.history ++ [⟨"user", u⟩, ⟨"assistant", ans⟩]))
      MAX_CONTEXT_CHARS).trans (roleFilter_sublist _)
    exact le_trans h1.length_le (trim_history_length _)
  simp only [on_text]
  split
  · exact Or.inl rfl
  · split
    · exact Or.inl rfl
    · split
      · exact Or.inl rfl
      · split
        · exact Or.inr (hfin _ _ _ _ _)
        · split
          · exact Or.inr (hfin _ _ _ _ _)
          · exact Or.inl rfl

/-! ### Helper lemmas about the rate limiter -/

theorem rlAllowW_reject {W : Int} {M : Nat} {hits : List Int} {now : Int}
    (h : M ≤ (hits.filter fun t => decide (now - W ≤ t)).length) :
    rlAllowW W M hits now = (false, hits.filter fun t => decide (now - W ≤ t)) := by
  simp only [rlAllowW]
  rw [if_pos h]

theorem rlAllowW_accept {W : Int} {M : Nat} {hits : List Int} {now : Int}
    (h : ¬ M ≤ (hits.filter fun t => decide (now - W ≤ t)).length) :
    rlAllowW W M hits now =
      (true, (hits.filter fun t => decide (now - W ≤ t)) ++ [now]) := by
  simp only [rlAllowW]
  rw [if_neg h]

theorem runAccepted_cons (W : Int) (M : Nat) (hits : List Int) (n : Int)
    (rest : List Int) :
    runAccepted W M hits (n :: rest) =
      if (rlAllowW W M hits n).1 then
        n :: runAccepted W M (rlAllowW W M hits n).2 rest
      else runAccepted W M (rlAllowW W M hits n).2 rest := rfl

theorem mem_runAccepted {W : Int} {M : Nat} {hits ts : List Int} {x : Int}
    (hx : x ∈ runAccepted W M hits ts) : x ∈ ts := by
  induction ts generalizing hits with
  | nil => simp only [runAccepted] at hx; exact absurd hx (List.not_mem_nil x)
  | cons n rest ih =>
    simp only [runAccepted] at hx
    split at hx
    · rcases List.mem_cons.mp hx with h | h
      · exact h ▸ List.mem_cons_self n rest
      · exact List.mem_cons_of_mem _ (ih h)
    · exact List.mem_cons_of_mem _ (ih hx)

theorem runAccepted_window (W : Int) (M : Nat) (a : Int) :
    ∀ ts : List Int, ts.Chain' (· ≤ ·) → ∀ hits : List Int,
      ((runAccepted W M hits ts).countP
          fun t => decide (a ≤ t) && decide (t ≤ a + W)) ≤
        M - min M (hits.countP fun t => decide (a ≤ t)) := by
  intro ts
  induction ts with
  | nil =>
    intro _ hits
    simp [runAccepted]
  | cons n rest ih =>
    intro hts hits
    have hrest : rest.Chain' (· ≤ ·) := hts.tail
    by_cases hwin : n ≤ a + W
    · have hprune : ((hits.filter fun t => decide (n - W ≤ t)).countP
          fun t => decide (a ≤ t)) = hits.countP fun t => decide (a ≤ t) := by
        rw [List.countP_filter]
        refine List.countP_congr fun x _ => ?_
        by_cases hax : a ≤ x
        · have : n - W ≤ x := by omega
          simp [hax, this]
        · simp [hax]
      by_cases hrej : M ≤ (hits.filter fun t => decide (n - W ≤ t)).length
      · have hrun : runAccepted W M hits (n :: rest) =
            runAccepted W M (hits.filter fun t => decide (n - W ≤ t)) rest := by
          rw [runAccepted_cons, rlAllowW_reject hrej, if_neg (by simp)]
        rw [hrun]
        calc ((runAccepted W M (hits.filter fun t => decide (n - W ≤ t)) rest).countP
              fun t => decide (a ≤ t) && decide (t ≤ a + W))
            ≤ M - min M ((hits.filter fun t => decide (n - W ≤ t)).countP
                fun t => decide (a ≤ t)) := ih hrest _
          _ = M - min M (hits.countP fun t => decide (a ≤ t)) := by rw [hprune]
      · have hrun : runAccepted W M hits (n :: rest) =
            n :: runAccepted W M
              ((hits.filter fun t => decide (n - W ≤ t)) ++ [n]) rest := by
          rw [runAccepted_cons, rlAllowW_accept hrej, if_pos rfl]
        have hcnt := ih hrest ((hits.filter fun t => decide (n - W ≤ t)) ++ [n])
        have hcP : ((hits.filter fun t => decide (n - W ≤ t)).countP
            fun t => decide (a ≤ t)) ≤
            (hits.filter fun t => decide (n - W ≤ t)).length :=
          List.countP_le_length _
        rw [hrun, List.countP_cons]
        rw [List.countP_append] at hcnt
        have hc : (hits.countP fun t => decide (a ≤ t)) < M := by
          rw [hprune] at hcP
          omega
        by_cases hax : a ≤ n
        · have h1 : (([n] : List Int).countP fun t => decide (a ≤ t)) = 1 := by
            simp [List.countP_cons, hax]
          rw [h1, hprune] at hcnt
          have h2 : (decide (a ≤ n) && decide (n ≤ a + W)) = true := by
            simp [hax, hwin]
          rw [Nat.min_eq_right (by omega)] at hcnt
          rw [h2, if_pos rfl, Nat.min_eq_right (le_of_lt hc)]
          omega
        · have h1 : (([n] : List Int).countP fun t => decide (a ≤ t)) = 0 := by
            simp [List.countP_cons, hax]
          rw [h1, hprune, Nat.add_zero] at hcnt
          have h2 : (decide (a ≤ n) && decide (n ≤ a + W)) = false := by
            simp [hax]
          rw [Nat.min_eq_right (le_of_lt hc)] at hcnt
          rw [h2, if_neg Bool.false_ne_true, Nat.min_eq_right (le_of_lt hc)]
          omega
    · have hall : ∀ x ∈ n :: rest, n ≤ x := by
        have hpw := List.chain'_iff_pairwise.mp hts
        intro x hx
        rcases List.mem_cons.mp hx with h | h
        · exact h ▸ le_refl n
        · exact List.rel_of_pairwise_cons hpw h
      have : ((runAccepted W M hits (n :: rest)).countP
          fun t => decide (a ≤ t) && decide (t ≤ a + W)) = 0 := by
        rw [List.countP_eq_zero]
        intro x hx
        have hxn : n ≤ x := hall x (mem_runAccepted hx)
        simp only [Bool.and_eq_true, decide_eq_true_eq, not_and]
        intro _
        omega
      omega

/-- C4: over any non-decreasing sequence of `allow` calls on one
conversation, at most `maxHits` calls are accepted inside any sliding
window `[a, a + windowSec]`; moreover a single `allow` call prunes exactly
the hits strictly older than `now - windowSec`, rejects without recording
when `maxHits` hits remain, and otherwise records `now` and accepts. -/
theorem rate_limiter_correct (W : Int) (M : Nat) :
    (∀ ts : List Int, ts.Chain' (· ≤ ·) → ∀ a : Int,
      ((runAccepted W M [] ts).countP
          fun t => decide (a ≤ t) && decide (t ≤ a + W)) ≤ M) ∧
    (∀ hits : List Int, ∀ now : Int,
      (M ≤ (hits.filter fun t => decide (now - W ≤ t)).length →
        rlAllowW W M hits now =
          (false, hits.filter fun t => decide (now - W ≤ t))) ∧
      ((hits.filter fun t => decide (now - W ≤ t)).length < M →
        rlAllowW W M hits now =
          (true, (hits.filter fun t => decide (now - W ≤ t)) ++ [now]))) := by
  constructor
  · intro ts hts a
    have := runAccepted_window W M a ts hts []
    simpa using this
  · intro hits now
    exact ⟨fun h => rlAllowW_reject h, fun h => rlAllowW_accept (Nat.not_le.mpr h)⟩

/-- Witness for C4: six calls at seconds 0..5 with `WINDOW_SEC = 10` and
`MAX_MSG_PER_WINDOW = 4` accept at most 4 inside the window starting at 0,
and a call at time 5 with four recent hits is rejected without recording. -/
theorem rate_limiter_correct_witness :
    ((runAccepted 10 4 [] [0, 1, 2, 3, 4, 5]).countP
        fun t => decide ((0 : Int) ≤ t) && decide (t ≤ 0 + 10)) ≤ 4 ∧
    rlAllowW 10 4 [0, 1, 2, 3] 5 =
      (false, ([0, 1, 2, 3] : List Int).filter fun t => decide ((5 : Int) - 10 ≤ t)) :=
  ⟨(rate_limiter_correct 10 4).1 [0, 1, 2, 3, 4, 5]
      (by norm_num [List.chain'_cons]) 0,
    ((rate_limiter_correct 10 4).2 [0, 1, 2, 3] 5).1 (by decide)⟩

/-! ### Helper lemmas about the garbage collector -/

theorem keyInj {s : Store} (hnd : (s.map Prod.fst).Nodup)
    {e f : Int × ChatState} (he : e ∈ s) (hf : f ∈ s) (hk : e.1 = f.1) :
    e = f := by
  induction s with
  | nil => cases he
  | cons a t ih =>
    rw [List.map_cons, List.nodup_cons] at hnd
    rcases List.mem_cons.mp he with rfl | he'
    · rcases List.mem_cons.mp hf with rfl | hf'
      · rfl
      · exact absurd (hk ▸ List.mem_map_of_mem Prod.fst hf') hnd.1
    · rcases List.mem_cons.mp hf with rfl | hf'
      · exact absurd (hk ▸ List.mem_map_of_mem Prod.fst he') hnd.1
      · exact ih hnd.2 he' hf'

theorem popIds_staleIds {s : Store} (now : Int)
    (hnd : (s.map Prod.fst).Nodup) :
    popIds s (staleIds s now) =
      s.filter fun e => decide (now - STATE_TTL_SEC ≤ e.2.lastSeen) := by
  refine List.filter_congr fun e he => ?_
  by_cases hc : e.2.lastSeen < now - STATE_TTL_SEC
  · have hin : e.1 ∈ staleIds s now :=
      List.mem_map_of_mem _ (List.mem_filter.mpr ⟨he, by simpa using hc⟩)
    have h1 : (staleIds s now).contains e.1 = true := List.elem_iff.mpr hin
    rw [h1]
    simp only [Bool.not_true]
    exact (decide_eq_false (by omega)).symm
  · have hnotin : e.1 ∉ staleIds s now := by
      intro hmem
      rcases List.mem_map.mp hmem with ⟨x, hx, hx1⟩
      have hxs := (List.mem_filter.mp hx).1
      have hxp := (List.mem_filter.mp hx).2
      have hxe : x = e := keyInj hnd hxs he hx1
      rw [hxe] at hxp
      simp at hxp
      omega
    have h1 : (staleIds s now).contains e.1 = false := by
      rw [← Bool.not_eq_true]
      exact fun h => hnotin (List.elem_iff.mp h)
    rw [h1]
    simp only [Bool.not_false]
    exact (decide_eq_true (by omega)).symm

theorem stale_kept_length (s : Store) (now : Int) :
    (staleIds s now).length +
      (s.filter fun e => decide (now - STATE_TTL_SEC ≤ e.2.lastSeen)).length =
      s.length := by
  unfold staleIds
  rw [List.length_map, ← List.countP_eq_length_filter,
    ← List.countP_eq_length_filter]
  have hlen := List.length_eq_countP_add_countP
    (p := fun e : Int × ChatState => decide (e.2.lastSeen < now - STATE_TTL_SEC)) s
  rw [hlen]
  congr 1
  refine List.countP_congr fun e _ => ?_
  by_cases h : e.2.lastSeen < now - STATE_TTL_SEC
  · simp [h]
    omega
  · simp [h]
    omega

theorem bySeen_sorted (l : Store) :
    (l.mergeSort bySeen).Pairwise (fun a b => bySeen a b) := by
  apply List.sorted_mergeSort
  · intro a b c h1 h2
    simp only [bySeen, decide_eq_true_eq] at *
    omega
  · intro a b
    simp only [bySeen, Bool.or_eq_true, decide_eq_true_eq]
    omega

theorem capacityPass (l : Store) (hnd : (l.map Prod.fst).Nodup) (extra : Nat)
    (hex : extra ≤ l.length) :
    (popIds l (((l.mergeSort bySeen).take extra).map fun e => e.1)).length =
        l.length - extra ∧
    List.Sublist (popIds l (((l.mergeSort bySeen).take extra).map fun e => e.1)) l ∧
    (∀ r ∈ l, r ∉ popIds l (((l.mergeSort bySeen).take extra).map fun e => e.1) →
      ∀ k ∈ popIds l (((l.mergeSort bySeen).take extra).map fun e => e.1),
        r.2.lastSeen ≤ k.2.lastSeen) ∧
    (((l.mergeSort bySeen).take extra).map fun e => e.1).length = extra := by
  have hperm : List.Perm (l.mergeSort bySeen) l := List.mergeSort_perm l bySeen
  have hndl : l.Nodup := hnd.of_map Prod.fst
  have hnds : (l.mergeSort bySeen).Nodup := hperm.nodup_iff.mpr hndl
  have hsorted := bySeen_sorted l
  have hsplit : (l.mergeSort bySeen).take extra ++ (l.mergeSort bySeen).drop extra =
      l.mergeSort bySeen := List.take_append_drop extra (l.mergeSort bySeen)
  have hdisj : ((l.mergeSort bySeen).take extra).Disjoint
      ((l.mergeSort bySeen).drop extra) := by
    refine List.disjoint_of_nodup_append ?_
    rw [hsplit]
    exact hnds
  have hmemT : ∀ e ∈ l,
      ((((l.mergeSort bySeen).take extra).map fun x => x.1).contains e.1 = true ↔
        e ∈ (l.mergeSort bySeen).take extra) := by
    intro e he
    constructor
    · intro h
      rcases List.mem_map.mp (List.elem_iff.mp h) with ⟨v, hv, hv1⟩
      have hvl : v ∈ l := hperm.mem_iff.mp ((List.take_sublist _ _).mem hv)
      have : v = e := keyInj hnd hvl he hv1
      exact this ▸ hv
    · intro h
      exact List.elem_iff.mpr (List.mem_map_of_mem _ h)
  have hfilter : popIds l (((l.mergeSort bySeen).take extra).map fun e => e.1) =
      l.filter fun e => !(decide (e ∈ (l.mergeSort bySeen).take extra)) := by
    refine List.filter_congr fun e he => ?_
    have := hmemT e he
    by_cases hm : e ∈ (l.mergeSort bySeen).take extra
    · rw [this.mpr hm]
      simp [hm]
    · have : (((l.mergeSort bySeen).take extra).map fun x => x.1).contains e.1 = false := by
        rw [← Bool.not_eq_true]
        exact fun h => hm (this.mp h)
      rw [this]
      simp [hm]
  have hpermf : List.Perm
      (l.filter fun e => !(decide (e ∈ (l.mergeSort bySeen).take extra)))
      ((l.mergeSort bySeen).filter
        fun e => !(decide (e ∈ (l.mergeSort bySeen).take extra))) :=
    (hperm.filter _).symm
  have hfsorted : ((l.mergeSort bySeen).filter
      fun e => !(decide (e ∈ (l.mergeSort bySeen).take extra))) =
      (l.mergeSort bySeen).drop extra := by
    have hstep : ((l.mergeSort bySeen).filter
        fun e => !(decide (e ∈ (l.mergeSort bySeen).take extra))) =
        (((l.mergeSort bySeen).take extra ++ (l.mergeSort bySeen).drop extra).filter
          fun e => !(decide (e ∈ (l.mergeSort bySeen).take extra))) := by
      rw [hsplit]
    rw [hstep, List.filter_append]
    have h1 : (((l.mergeSort bySeen).take extra).filter
        fun e => !(decide (e ∈ (l.mergeSort bySeen).take extra))) = [] := by
      rw [List.filter_eq_nil_iff]
      intro a ha
      simp [ha]
    have h2 : (((l.mergeSort bySeen).drop extra).filter
        fun e => !(decide (e ∈ (l.mergeSort bySeen).take extra))) =
        (l.mergeSort bySeen).drop extra := by
      rw [List.filter_eq_self]
      intro a ha
      have : a ∉ (l.mergeSort bySeen).take extra := fun h => hdisj h ha
      simp [this]
    rw [h1, h2, List.nil_append]
  have hlen : (popIds l (((l.mergeSort bySeen).take extra).map fun e => e.1)).length =
      l.length - extra := by
    rw [hfilter, hpermf.length_eq, hfsorted, List.length_drop, hperm.length_eq]
  refine ⟨hlen, ?_, ?_, ?_⟩
  · rw [hfilter]
    exact List.filter_sublist l
  · intro r hr hrout k hk
    have hrT : r ∈ (l.mergeSort bySeen).take extra := by
      by_contra hno
      exact hrout (by
        rw [hfilter]
        exact List.mem_filter.mpr ⟨hr, by simp [hno]⟩)
    have hkD : k ∈ (l.mergeSort bySeen).drop extra := by
      rw [hfilter] at hk
      have hkT : ¬ k ∈ (l.mergeSort bySeen).take extra := by
        have := (List.mem_filter.mp hk).2
        simpa using this
      have hkl : k ∈ l.mergeSort bySeen := hperm.mem_iff.mpr (List.mem_filter.mp hk).1
      rcases List.mem_append.mp (hsplit ▸ hkl) with h | h
      · exact absurd h hkT
      · exact h
    have hpw : ∀ x ∈ (l.mergeSort bySeen).take extra,
        ∀ y ∈ (l.mergeSort bySeen).drop extra, bySeen x y := by
      have := List.pairwise_append.mp (hsplit ▸ hsorted)
      exact this.2.2
    have := hpw r hrT k hkD
    simpa [bySeen] using this
  · rw [List.length_map, List.length_take, hperm.length_eq]
    omega

set_option maxRecDepth 8000 in
/-- C3: `gc_states` at clock `now` first removes exactly the entries with
`last_seen < now - STATE_TTL_SEC` (an entry at exactly the cutoff is
retained); then, when more than `MAX_CHAT_STATES` entries survive, removes
exactly `size - MAX_CHAT_STATES` further entries, all with `last_seen` no
larger than any surviving entry's; and it returns the total number of
removed entries. -/
theorem gc_states_correct (s : Store) (now : Int)
    (hnd : (s.map Prod.fst).Nodup) :
    (gc_states s now).2 = s.length - (gc_states s now).1.length ∧
    popIds s (staleIds s now) =
      (s.filter fun e => decide (now - STATE_TTL_SEC ≤ e.2.lastSeen)) ∧
    ((s.filter fun e => decide (now - STATE_TTL_SEC ≤ e.2.lastSeen)).length ≤
        MAX_CHAT_STATES →
      (gc_states s now).1 =
        s.filter fun e => decide (now - STATE_TTL_SEC ≤ e.2.lastSeen)) ∧
    (MAX_CHAT_STATES <
        (s.filter fun e => decide (now - STATE_TTL_SEC ≤ e.2.lastSeen)).length →
      (gc_states s now).1.length = MAX_CHAT_STATES ∧
      List.Sublist (gc_states s now).1
        (s.filter fun e => decide (now - STATE_TTL_SEC ≤ e.2.lastSeen)) ∧
      (∀ r ∈ s.filter fun e => decide (now - STATE_TTL_SEC ≤ e.2.lastSeen),
        r ∉ (gc_states s now).1 →
        ∀ k ∈ (gc_states s now).1, r.2.lastSeen ≤ k.2.lastSeen)) := by
  have hpop := popIds_staleIds now hnd
  have hcompl := stale_kept_length s now
  have hndk : ((s.filter fun e =>
      decide (now - STATE_TTL_SEC ≤ e.2.lastSeen)).map Prod.fst).Nodup :=
    List.Nodup.sublist ((List.filter_sublist s).map Prod.fst) hnd
  by_cases hcap : MAX_CHAT_STATES <
      (s.filter fun e => decide (now - STATE_TTL_SEC ≤ e.2.lastSeen)).length
  · have hcp := capacityPass
      (s.filter fun e => decide (now - STATE_TTL_SEC ≤ e.2.lastSeen)) hndk
      ((s.filter fun e => decide (now - STATE_TTL_SEC ≤ e.2.lastSeen)).length -
        MAX_CHAT_STATES)
      (by omega)
    have hgc : gc_states s now =
        (popIds (s.filter fun e => decide (now - STATE_TTL_SEC ≤ e.2.lastSeen))
          ((((s.filter fun e =>
              decide (now - STATE_TTL_SEC ≤ e.2.lastSeen)).mergeSort bySeen).take
            ((s.filter fun e =>
              decide (now - STATE_TTL_SEC ≤ e.2.lastSeen)).length -
              MAX_CHAT_STATES)).map fun e => e.1),
          (staleIds s now).length +
            ((((s.filter fun e =>
                decide (now - STATE_TTL_SEC ≤ e.2.lastSeen)).mergeSort bySeen).take
              ((s.filter fun e =>
                decide (now - STATE_TTL_SEC ≤ e.2.lastSeen)).length -
                MAX_CHAT_STATES)).map fun e => e.1).length) := by
      rw [gc_states, hpop, if_pos hcap]
    have hgc1 : (gc_states s now).1 =
        popIds (s.filter fun e => decide (now - STATE_TTL_SEC ≤ e.2.lastSeen))
          ((((s.filter fun e =>
              decide (now - STATE_TTL_SEC ≤ e.2.lastSeen)).mergeSort bySeen).take
            ((s.filter fun e =>
              decide (now - STATE_TTL_SEC ≤ e.2.lastSeen)).length -
              MAX_CHAT_STATES)).map fun e => e.1) := by
      rw [hgc]
    have hgc2 : (gc_states s now).2 =
        (staleIds s now).length +
          ((((s.filter fun e =>
              decide (now - STATE_TTL_SEC ≤ e.2.lastSeen)).mergeSort bySeen).take
            ((s.filter fun e =>
              decide (now - STATE_TTL_SEC ≤ e.2.lastSeen)).length -
              MAX_CHAT_STATES)).map fun e => e.1).length := by
      rw [hgc]
    rw [hgc1, hgc2]
    refine ⟨?_, hpop, fun h => absurd hcap (Nat.not_lt.mpr h),
      fun _ => ⟨?_, hcp.2.1, hcp.2.2.1⟩⟩
    · have h1 := hcp.1
      have h2 := hcp.2.2.2
      omega
    · have h1 := hcp.1
      omega
  · have hgc : gc_states s now =
        (s.filter fun e => decide (now - STATE_TTL_SEC ≤ e.2.lastSeen),
          (staleIds s now).length) := by
      rw [gc_states, hpop, if_neg hcap]
    have hgc1 : (gc_states s now).1 =
        s.filter fun e => decide (now - STATE_TTL_SEC ≤ e.2.lastSeen) := by
      rw [hgc]
    have hgc2 : (gc_states s now).2 = (staleIds s now).length := by
      rw [hgc]
    rw [hgc1, hgc2]
    exact ⟨by omega, hpop, fun _ => rfl, fun h => absurd h hcap⟩

/-- Witness for C3 at a concrete three-entry store with distinct ids: the
TTL pass of the sweep at time 86401 keeps exactly the entries whose
`last_seen` is at least the cutoff `86401 - 86400 = 1`. -/
theorem gc_states_correct_witness :
    popIds
        [(1, ⟨"m", [], [], 0⟩), (2, ⟨"m", [], [], 1⟩), (3, ⟨"m", [], [], 90000⟩)]
        (staleIds
          [(1, ⟨"m", [], [], 0⟩), (2, ⟨"m", [], [], 1⟩), (3, ⟨"m", [], [], 90000⟩)]
          86401) =
      ([(1, (⟨"m", [], [], 0⟩ : ChatState)), (2, ⟨"m", [], [], 1⟩),
          (3, ⟨"m", [], [], 90000⟩)] : Store).filter
        fun e => decide ((86401 : Int) - STATE_TTL_SEC ≤ e.2.lastSeen) :=
  (gc_states_correct
    [(1, ⟨"m", [], [], 0⟩), (2, ⟨"m", [], [], 1⟩), (3, ⟨"m", [], [], 90000⟩)]
    86401 (by decide)).2.1

/-! ### Helper lemmas about the store and the message handler -/

theorem setEntry_length (s : Store) (id : Int) (st : ChatState) :
    (setEntry s id st).length = s.length := by
  simp [setEntry]

theorem setEntry_setEntry (s : Store) (id : Int) (st1 st2 : ChatState) :
    setEntry (setEntry s id st1) id st2 = setEntry s id st2 := by
  simp only [setEntry, List.map_map]
  refine List.map_congr_left fun e _ => ?_
  by_cases he : e.1 = id
  · simp [he]
  · simp [he]

theorem lookup_setEntry_self {s : Store} {id : Int} {st0 : ChatState}
    (st : ChatState) (h : s.lookup id = some st0) :
    (setEntry s id st).lookup id = some st := by
  induction s with
  | nil => simp [List.lookup] at h
  | cons e t ih =>
    obtain ⟨k, v⟩ := e
    by_cases he : k = id
    · subst he
      have hset : setEntry ((k, v) :: t) k st = (k, st) :: setEntry t k st := by
        simp [setEntry]
      rw [hset]
      simp [List.lookup]
    · have hne : (id == k) = false := beq_eq_false_iff_ne.mpr (Ne.symm he)
      have h' : List.lookup id t = some st0 := by
        simpa [List.lookup, hne] using h
      have hset : setEntry ((k, v) :: t) id st = (k, v) :: setEntry t id st := by
        simp [setEntry, he]
      rw [hset]
      simpa [List.lookup, hne] using ih h'

theorem get_state_of_mem {s : Store} {id : Int} {st0 : ChatState} (now : Int)
    (h : s.lookup id = some st0) :
    get_state s id now =
      (setEntry s id { st0 with lastSeen := now },
        { st0 with lastSeen := now }) := by
  simp [get_state, h]

theorem pyStrip_replicate_of_not_ws {c : Char} (hc : c.isWhitespace = false)
    (n : Nat) : pyStrip (List.replicate n c) = List.replicate n c := by
  have hdrop : ∀ m : Nat,
      (List.replicate m c).dropWhile Char.isWhitespace = List.replicate m c := by
    intro m
    cases m with
    | zero => simp
    | succ k => simp [List.replicate_succ, List.dropWhile_cons, hc]
  unfold pyStrip
  rw [hdrop, List.reverse_replicate, hdrop, List.reverse_replicate]

theorem on_text_empty_eq (s : Store) (chatId : Int) (text : PyStr) (now : Int)
    (pr fb : Except PyStr PyStr) (st0 : ChatState)
    (hmem : s.lookup chatId = some st0)
    (hsize : s.length ≤ MAX_CHAT_STATES)
    (hallow : (rlAllow st0.hits now).1 = true)
    (hempty : (pyStrip text).isEmpty = true) :
    on_text s chatId text now pr fb =
      { store := setEntry s chatId
          { st0 with lastSeen := now, hits := (rlAllow st0.hits now).2 },
        state := { st0 with lastSeen := now, hits := (rlAllow st0.hits now).2 },
        reply := none, calls := 0 } := by
  have hget := get_state_of_mem now hmem
  have hgc : ¬ (MAX_CHAT_STATES <
      (setEntry s chatId { st0 with lastSeen := now }).length) := by
    rw [setEntry_length]
    omega
  simp only [on_text, hget, if_neg hgc, hallow, Bool.not_true,
    Bool.false_eq_true, if_false, hempty, if_true, setEntry_setEntry]

theorem on_text_toolong_eq (s : Store) (chatId : Int) (text : PyStr) (now : Int)
    (pr fb : Except PyStr PyStr) (st0 : ChatState)
    (hmem : s.lookup chatId = some st0)
    (hsize : s.length ≤ MAX_CHAT_STATES)
    (hallow : (rlAllow st0.hits now).1 = true)
    (hlong : MAX_INPUT_CHARS < (pyStrip text).length) :
    on_text s chatId text now pr fb =
      { store := setEntry s chatId
          { st0 with lastSeen := now, hits := (rlAllow st0.hits now).2 },
        state := { st0 with lastSeen := now, hits := (rlAllow st0.hits now).2 },
        reply := some lenMsg, calls := 0 } := by
  have hget := get_state_of_mem now hmem
  have hgc : ¬ (MAX_CHAT_STATES <
      (setEntry s chatId { st0 with lastSeen := now }).length) := by
    rw [setEntry_length]
    omega
  have hne : (pyStrip text).isEmpty = false := by
    rw [List.isEmpty_eq_false_iff_exists_mem]
    rcases List.exists_mem_of_length_pos (l := pyStrip text) (by omega) with ⟨x, hx⟩
    exact ⟨x, hx⟩
  simp only [on_text, hget, if_neg hgc, hallow, Bool.not_true,
    Bool.false_eq_true, if_false, hne, hlong, if_true, setEntry_setEntry]

theorem on_text_double_failure_eq (s : Store) (chatId : Int) (text : PyStr)
    (now : Int) (e1 e2 : PyStr) (st0 : ChatState)
    (hmem : s.lookup chatId = some st0)
    (hsize : s.length ≤ MAX_CHAT_STATES)
    (hallow : (rlAllow st0.hits now).1 = true)
    (hne : (pyStrip text).isEmpty = false)
    (hlen : (pyStrip text).length ≤ MAX_INPUT_CHARS) :
    on_text s chatId text now (.error e1) (.error e2) =
      { store := setEntry s chatId
          { st0 with lastSeen := now, hits := (rlAllow st0.hits now).2 },
        state := { st0 with lastSeen := now, hits := (rlAllow st0.hits now).2 },
        reply := some (ollamaErrMsg e2), calls := 2 } := by
  have hget := get_state_of_mem now hmem
  have hgc : ¬ (MAX_CHAT_STATES <
      (setEntry s chatId { st0 with lastSeen := now }).length) := by
    rw [setEntry_length]
    omega
  have hlt : ¬ (MAX_INPUT_CHARS < (pyStrip text).length) := Nat.not_lt.mpr hlen
  simp only [on_text, hget, if_neg hgc, hallow, Bool.not_true,
    Bool.false_eq_true, if_false, hne, hlt, setEntry_setEntry]

/-! ### Theorems for the claims about the handler and the locks dict -/

/-- C1: contrary to the specification, `gc_states` removes entries only
from the `states` dict and never from the `locks` dict — the code contains
no lock removal at all, so the lock of a TTL-collected conversation stays
behind.  At the failing input below (conversation 1 idle past the TTL, its
lock present), the sweep removes the state entry, reports one removal, and
the lock map still contains id 1. -/
theorem gcSweep_lock_leak :
    (gcSweep [(1, ⟨"m", [], [], 0⟩)] [1] 86401).1 = [] ∧
    (gcSweep [(1, ⟨"m", [], [], 0⟩)] [1] 86401).2.1 = [1] ∧
    (gcSweep [(1, ⟨"m", [], [], 0⟩)] [1] 86401).2.2 = 1 := by
  decide

/-- Counterexample to C2 as stated: with both backend calls failing, the
handler does reply with the backend error message, but the conversation
state is not untouched — the rate limiter appended the call timestamp to
`hits` and `get_state` bumped `last_seen`. -/
theorem on_text_double_failure_touches_state :
    (on_text [(7, ⟨"m", [⟨"user", ['o']⟩], [], 0⟩)] 7 ['h', 'i'] 100
        (.error ['a']) (.error ['b'])).reply = some (ollamaErrMsg ['b']) ∧
    (on_text [(7, ⟨"m", [⟨"user", ['o']⟩], [], 0⟩)] 7 ['h', 'i'] 100
        (.error ['a']) (.error ['b'])).state.hits = [100] ∧
    (on_text [(7, ⟨"m", [⟨"user", ['o']⟩], [], 0⟩)] 7 ['h', 'i'] 100
        (.error ['a']) (.error ['b'])).state.lastSeen = 100 ∧
    (⟨"m", [⟨"user", ['o']⟩], [], 0⟩ : ChatState).hits = [] ∧
    (⟨"m", [⟨"user", ['o']⟩], [], 0⟩ : ChatState).lastSeen = 0 := by
  decide

/-- C2 (amended): when the primary and the fallback backend calls both
fail, the handler replies with the truncated backend error message, makes
exactly the two backend calls, and leaves the conversation's history and
model unchanged (in the local state and in the store); the rate-limiter
`hits` list and `last_seen` are updated by the pre-checks that run before
the backend call, so those two fields are not preserved. -/
theorem on_text_double_failure_spec (s : Store) (chatId : Int) (text : PyStr)
    (now : Int) (e1 e2 : PyStr) (st0 : ChatState)
    (hmem : s.lookup chatId = some st0)
    (hsize : s.length ≤ MAX_CHAT_STATES)
    (hallow : (rlAllow st0.hits now).1 = true)
    (hne : (pyStrip text).isEmpty = false)
    (hlen : (pyStrip text).length ≤ MAX_INPUT_CHARS) :
    (on_text s chatId text now (.error e1) (.error e2)).reply =
      some (ollamaErrMsg e2) ∧
    (on_text s chatId text now (.error e1) (.error e2)).calls = 2 ∧
    (on_text s chatId text now (.error e1) (.error e2)).state.history =
      st0.history ∧
    (on_text s chatId text now (.error e1) (.error e2)).state.model =
      st0.model ∧
    (on_text s chatId text now (.error e1) (.error e2)).store.lookup chatId =
      some ((on_text s chatId text now (.error e1) (.error e2)).state) := by
  rw [on_text_double_failure_eq s chatId text now e1 e2 st0 hmem hsize hallow
    hne hlen]
  exact ⟨rfl, rfl, rfl, rfl, lookup_setEntry_self _ hmem⟩

/-- Witness for C2 (amended) at a concrete one-conversation store. -/
theorem on_text_double_failure_spec_witness :
    (on_text [(7, ⟨"m", [⟨"user", ['o']⟩], [], 0⟩)] 7 ['h', 'i'] 100
        (.error ['a']) (.error ['b'])).reply = some (ollamaErrMsg ['b']) ∧
    (on_text [(7, ⟨"m", [⟨"user", ['o']⟩], [], 0⟩)] 7 ['h', 'i'] 100
        (.error ['a']) (.error ['b'])).calls = 2 ∧
    (on_text [(7, ⟨"m", [⟨"user", ['o']⟩], [], 0⟩)] 7 ['h', 'i'] 100
        (.error ['a']) (.error ['b'])).state.history =
      (⟨"m", [⟨"user", ['o']⟩], [], 0⟩ : ChatState).history ∧
    (on_text [(7, ⟨"m", [⟨"user", ['o']⟩], [], 0⟩)] 7 ['h', 'i'] 100
        (.error ['a']) (.error ['b'])).state.model =
      (⟨"m", [⟨"user", ['o']⟩], [], 0⟩ : ChatState).model ∧
    (on_text [(7, ⟨"m", [⟨"user", ['o']⟩], [], 0⟩)] 7 ['h', 'i'] 100
        (.error ['a']) (.error ['b'])).store.lookup 7 =
      some ((on_text [(7, ⟨"m", [⟨"user", ['o']⟩], [], 0⟩)] 7 ['h', 'i'] 100
        (.error ['a']) (.error ['b'])).state) :=
  on_text_double_failure_spec _ 7 ['h', 'i'] 100 ['a'] ['b'] _
    (by decide) (by decide) (by decide) (by decide) (by decide)

/-- Counterexample to C8 as stated: an all-whitespace message from a
conversation the rate limiter admits produces no reply at all — the
handler returns silently instead of sending the claimed user-visible
validation message (and indeed makes no backend call). -/
theorem on_text_empty_input_silent :
    (on_text [(7, ⟨"m", [], [], 0⟩)] 7 [' ', ' '] 100
        (.ok ['x']) (.ok ['y'])).reply = none ∧
    (on_text [(7, ⟨"m", [], [], 0⟩)] 7 [' ', ' '] 100
        (.ok ['x']) (.ok ['y'])).calls = 0 := by
  decide

/-- C8 (amended): when the stripped inbound text is empty and the rate
limiter admits the call, the handler makes no backend call and sends no
reply at all: the empty input is silently dropped rather than answered
with a validation message. -/
theorem on_text_empty_input_spec (s : Store) (chatId : Int) (text : PyStr)
    (now : Int) (pr fb : Except PyStr PyStr) (st0 : ChatState)
    (hmem : s.lookup chatId = some st0)
    (hsize : s.length ≤ MAX_CHAT_STATES)
    (hallow : (rlAllow st0.hits now).1 = true)
    (hempty : (pyStrip text).isEmpty = true) :
    (on_text s chatId text now pr fb).reply = none ∧
    (on_text s chatId text now pr fb).calls = 0 ∧
    (on_text s chatId text now pr fb).state.history = st0.history := by
  rw [on_text_empty_eq s chatId text now pr fb st0 hmem hsize hallow hempty]
  exact ⟨rfl, rfl, rfl⟩

/-- Witness for C8 (amended) on a two-space message. -/
theorem on_text_empty_input_spec_witness :
    (on_text [(7, ⟨"m", [], [], 0⟩)] 7 [' ', ' '] 100
        (.ok ['x']) (.ok ['y'])).reply = none ∧
    (on_text [(7, ⟨"m", [], [], 0⟩)] 7 [' ', ' '] 100
        (.ok ['x']) (.ok ['y'])).calls = 0 ∧
    (on_text [(7, ⟨"m", [], [], 0⟩)] 7 [' ', ' '] 100
        (.ok ['x']) (.ok ['y'])).state.history =
      (⟨"m", [], [], 0⟩ : ChatState).history :=
  on_text_empty_input_spec _ 7 [' ', ' '] 100 _ _ _
    (by decide) (by decide) (by decide) (by decide)

/-- Counterexample to C9 as stated: (a) an over-long first message from a
brand-new conversation is answered with the length-limit message, yet the
store grows from 0 to 1 entries because `get_state` inserts the fresh state
before the validation runs; (b) an over-long message from a rate-limited
conversation is answered with the rate-limit message, not the length-limit
one. -/
theorem on_text_too_long_counterexample :
    ((on_text [] 7 (List.replicate 4001 'a') 100 (.ok ['x']) (.ok ['y'])).reply =
        some lenMsg ∧
      (on_text [] 7 (List.replicate 4001 'a') 100
          (.ok ['x']) (.ok ['y'])).store.length = 1 ∧
      ([] : Store).length = 0) ∧
    (on_text [(8, ⟨"m", [], [0, 1, 2, 3], 3⟩)] 8 (List.replicate 4001 'a') 5
        (.ok ['x']) (.ok ['y'])).reply = some rateMsg := by
  constructor
  · have hstrip := pyStrip_replicate_of_not_ws (c := 'a') (by decide) 4001
    have hget : get_state [] 7 100 = ([(7, freshState 100)], freshState 100) := by
      decide
    have hgc : ¬ (MAX_CHAT_STATES < ([(7, freshState 100)] : Store).length) := by
      simp [MAX_CHAT_STATES]
    have hallow : rlAllow (freshState 100).hits 100 = (true, [100]) := by decide
    have hne : (pyStrip (List.replicate 4001 'a')).isEmpty = false := by
      rw [hstrip, show (4001 : Nat) = 4000 + 1 by norm_num, List.replicate_succ]
      rfl
    have hlong : MAX_INPUT_CHARS < (pyStrip (List.replicate 4001 'a')).length := by
      rw [hstrip, List.length_replicate]
      norm_num [MAX_INPUT_CHARS]
    simp only [on_text, hget, if_neg hgc, hallow, Bool.not_true,
      Bool.false_eq_true, if_false, hne, hlong, if_true]
    simp [setEntry]
  · decide

/-- C9 (amended): for an existing conversation within store capacity whose
rate-limit check admits the call, an inbound message whose stripped text
exceeds `MAX_INPUT_CHARS` is answered with the length-limit message, no
backend call is made, the store size is unchanged, and the stored history
is unchanged; a brand-new conversation instead gains a store entry, and a
rate-limited one gets the rate-limit reply. -/
theorem on_text_too_long_spec (s : Store) (chatId : Int) (text : PyStr)
    (now : Int) (pr fb : Except PyStr PyStr) (st0 : ChatState)
    (hmem : s.lookup chatId = some st0)
    (hsize : s.length ≤ MAX_CHAT_STATES)
    (hallow : (rlAllow st0.hits now).1 = true)
    (hlong : MAX_INPUT_CHARS < (pyStrip text).length) :
    (on_text s chatId text now pr fb).reply = some lenMsg ∧
    (on_text s chatId text now pr fb).calls = 0 ∧
    (on_text s chatId text now pr fb).store.length = s.length ∧
    (on_text s chatId text now pr fb).state.history = st0.history ∧
    (on_text s chatId text now pr fb).store.lookup chatId =
      some ((on_text s chatId text now pr fb).state) := by
  rw [on_text_toolong_eq s chatId text now pr fb st0 hmem hsize hallow hlong]
  exact ⟨rfl, rfl, setEntry_length s chatId _, rfl,
    lookup_setEntry_self _ hmem⟩

/-- Witness for C9 (amended): a 4001-character message to an existing
conversation. -/
theorem on_text_too_long_spec_witness :
    (on_text [(7, ⟨"m", [⟨"user", ['o']⟩], [], 0⟩)] 7 (List.replicate 4001 'a')
        100 (.ok ['x']) (.ok ['y'])).reply = some lenMsg ∧
    (on_text [(7, ⟨"m", [⟨"user", ['o']⟩], [], 0⟩)] 7 (List.replicate 4001 'a')
        100 (.ok ['x']) (.ok ['y'])).calls = 0 ∧
    (on_text [(7, ⟨"m", [⟨"user", ['o']⟩], [], 0⟩)] 7 (List.replicate 4001 'a')
        100 (.ok ['x']) (.ok ['y'])).store.length =
      ([(7, (⟨"m", [⟨"user", ['o']⟩], [], 0⟩ : ChatState))] : Store).length ∧
    (on_text [(7, ⟨"m", [⟨"user", ['o']⟩], [], 0⟩)] 7 (List.replicate 4001 'a')
        100 (.ok ['x']) (.ok ['y'])).state.history =
      (⟨"m", [⟨"user", ['o']⟩], [], 0⟩ : ChatState).history ∧
    (on_text [(7, ⟨"m", [⟨"user", ['o']⟩], [], 0⟩)] 7 (List.replicate 4001 'a')
        100 (.ok ['x']) (.ok ['y'])).store.lookup 7 =
      some ((on_text [(7, ⟨"m", [⟨"user", ['o']⟩], [], 0⟩)] 7
        (List.replicate 4001 'a') 100 (.ok ['x']) (.ok ['y'])).state) :=
  on_text_too_long_spec _ 7 (List.replicate 4001 'a') 100 _ _ _
    (by decide) (by decide) (by decide)
    (by rw [pyStrip_replicate_of_not_ws (by decide) 4001, List.length_replicate]
        norm_num [MAX_INPUT_CHARS])

end Bot
